import Mathlib

/-!
Shallow embedding of the movie persistence layer of
github.com/petrostrak/an-open-movie-database.

The embedded code is internal/data/filters.go and internal/data/movies.go
(the latter in its current form, the file carrying MovieModel.Get, Update,
Delete and GetAll).  Go machine integers are modelled as Int, with explicit
64-bit wraparound where the Go code multiplies two int values.  The SQL
issued by the store is embedded as functions over an in-memory table, one
Movie per row; the Postgres full-text predicate of GetAll is an abstract
Bool-valued parameter.  Database round-trip failures other than the
semantic outcomes of the SQL are modelled by an Option Nat oracle: none
means the round trip works, some e means it fails with an opaque
database-level error e.
-/

namespace OMDB

/-- Movie record, internal/data/movies.go.  ID is int64, Year, Runtime and
Version are int32, CreatedAt is an opaque timestamp; all are modelled as Int. -/
structure Movie where
  ID : Int
  CreatedAt : Int
  Title : String
  Year : Int
  Runtime : Int
  Genres : List String
  Version : Int
deriving DecidableEq

/-- Filters value object, internal/data/filters.go.  The Go field Sort is a
Lean keyword and is embedded as SortKey. -/
structure Filters where
  Page : Int
  PageSize : Int
  SortKey : String
  SortSafelist : List String
deriving DecidableEq

/-- Pagination metadata, internal/data/filters.go.  The zero value stands for
the empty Metadata struct. -/
structure Metadata where
  CurrentPage : Int := 0
  PageSize : Int := 0
  FirstPage : Int := 0
  LastPage : Int := 0
  TotalRecords : Int := 0
deriving DecidableEq

/-- Modelled from the spec: the field-level Validator capability of
internal/validator is not among the sources.  Spec section 6: it accumulates
named validation failures and exposes whether the accumulated state is still
valid; a failure is appended under its field key, a key already present is
left untouched. -/
structure Validator where
  Errors : List (String × String)
deriving DecidableEq

/-- Modelled from the spec: a fresh Validator with no accumulated failures. -/
def Validator.New : Validator := ⟨[]⟩

/-- Modelled from the spec: the accumulated state is valid when no failure
has been recorded. -/
def Validator.Valid (v : Validator) : Bool := v.Errors.isEmpty

/-- Modelled from the spec: record a failure for a field key, keeping the
first message when the key is already present. -/
def Validator.AddError (v : Validator) (key message : String) : Validator :=
  if v.Errors.any (fun p => p.1 == key) then v else ⟨v.Errors ++ [(key, message)]⟩

/-- Modelled from the spec: add the failure exactly when the check does not
hold. -/
def Validator.Check (v : Validator) (ok : Bool) (key message : String) : Validator :=
  if ok then v else v.AddError key message

/-- Modelled from the spec: validator.In, membership of a value in a list of
permitted values. -/
def Validator.In (value : String) (list : List String) : Bool := list.contains value

/-- ValidateFilters, filters.go lines 20 to 29: the five checks in source
order. -/
def ValidateFilters (v : Validator) (f : Filters) : Validator :=
  ((((v.Check (decide (f.Page > 0)) "page" "must be greater that zero").Check
      (decide (f.Page <= 10000000)) "page" "must be a maximum that 10 million").Check
      (decide (f.PageSize > 0)) "page_size" "must be greater than zero").Check
      (decide (f.PageSize <= 100)) "page_size" "must be a maximum of 100").Check
      (Validator.In f.SortKey f.SortSafelist) "sort" "invalid sort value"

/-- Go strings.HasPrefix, in character-list form. -/
def hasPre (s pre : String) : Bool := pre.data.isPrefixOf s.data

/-- Go strings.TrimPrefix: the string without the given leading part when it
starts with it, the string unchanged otherwise. -/
def TrimPre (s pre : String) : String :=
  if hasPre s pre then ⟨s.data.drop pre.data.length⟩ else s

/-- sortColumn, filters.go lines 34 to 42: scan the safelist for the Sort
value and strip one leading hyphen on a hit.  The source panics when the
loop falls through; the panic is modelled as none. -/
def Filters.sortColumn (f : Filters) : Option String :=
  match f.SortSafelist.find? (fun safeValue => f.SortKey == safeValue) with
  | some _ => some (TrimPre f.SortKey "-")
  | none => none

/-- sortDirection, filters.go lines 46 to 52. -/
def Filters.sortDirection (f : Filters) : String :=
  if hasPre f.SortKey "-" then "DESC" else "ASC"

/-- limit, filters.go lines 55 to 57. -/
def Filters.limit (f : Filters) : Int := f.PageSize

/-- Reduction of an unbounded integer to 64-bit two complement wraparound,
the semantics of Go int arithmetic. -/
def wrap64 (n : Int) : Int := (n + 2 ^ 63) % 2 ^ 64 - 2 ^ 63

/-- offset, filters.go lines 65 to 67: the Go product of two int values,
hence taken with 64-bit wraparound. -/
def Filters.offset (f : Filters) : Int := wrap64 ((f.Page - 1) * f.PageSize)

/-- Exact ceiling division for a positive divisor, the embedding of the
int(math.Ceil(float64(totalRecords) / float64(pageSize))) step of
calculateMetadata. -/
def ceilDiv (t p : Int) : Int := -(Int.ediv (-t) p)

/-- calculateMetadata, filters.go lines 82 to 95. -/
def calculateMetadata (totalRecords page pageSize : Int) : Metadata :=
  if totalRecords == 0 then {}
  else
    { CurrentPage := page
      PageSize := pageSize
      FirstPage := 1
      LastPage := ceilDiv totalRecords pageSize
      TotalRecords := totalRecords }

/-- Modelled from the spec: the error taxonomy of the store, spec section 7.
The sentinels ErrRecordNotFound and ErrEditConflict are declared in
internal/data/models.go, which is not among the sources; movies.go returns
them.  storageError carries an opaque code standing for any other
database-level failure. -/
inductive StoreErr where
  | recordNotFound
  | editConflict
  | storageError (e : Nat)
deriving DecidableEq

/-- The movies table: one Movie per row, columns id, created_at, title,
year, runtime, genres, version. -/
abbrev Table := List Movie

/-- Row predicate of the conditional UPDATE of MovieModel.Update,
movies.go: WHERE id equals the movie ID AND version equals the movie
Version. -/
def updMatch (m : Movie) (r : Movie) : Bool :=
  r.ID == m.ID && r.Version == m.Version

/-- Row transformer of the conditional UPDATE of MovieModel.Update: a
matching row gets the payload columns replaced and version incremented by
one, any other row is untouched. -/
def updRow (m : Movie) (r : Movie) : Movie :=
  if updMatch m r then
    { r with
      Title := m.Title
      Year := m.Year
      Runtime := m.Runtime
      Genres := m.Genres
      Version := r.Version + 1 }
  else r

/-- The conditional UPDATE issued by MovieModel.Update: every row matching
updMatch gets the payload columns replaced and version incremented by one;
the RETURNING clause yields the new stored version of the matched row, none
when zero rows match. -/
def updateWhere (db : Table) (m : Movie) : Table × Option Int :=
  (db.map (updRow m), (db.find? (updMatch m)).map (fun r => r.Version + 1))

/-- MovieModel.Update, movies.go: on a working round trip the conditional
write runs; a RETURNING row scans the new version into the passed Movie; no
returned row (sql.ErrNoRows) maps to the edit-conflict sentinel; any other
database failure is returned unchanged.  Result: the table after the call,
the Movie value after the call, and the returned error. -/
def MovieModel.Update (db : Table) (dbFail : Option Nat) (movie : Movie) :
    Table × Movie × Option StoreErr :=
  match dbFail with
  | some e => (db, movie, some (.storageError e))
  | none =>
    match updateWhere db movie with
    | (db2, some v) => (db2, { movie with Version := v }, none)
    | (db2, none) => (db2, movie, some .editConflict)

/-- MovieModel.Get, movies.go: an id below one short-circuits to the
record-not-found sentinel with no database round trip; otherwise the point
lookup runs, sql.ErrNoRows maps to record-not-found, any other failure is
returned unchanged.  The Nat counts database round trips issued. -/
def MovieModel.Get (db : Table) (dbFail : Option Nat) (id : Int) :
    Except StoreErr Movie × Nat :=
  if id < 1 then (.error .recordNotFound, 0)
  else
    match dbFail with
    | some e => (.error (.storageError e), 1)
    | none =>
      match db.find? (fun r => r.ID == id) with
      | some movie => (.ok movie, 1)
      | none => (.error .recordNotFound, 1)

/-- MovieModel.Delete, movies.go: an id below one short-circuits to the
record-not-found sentinel with no database round trip; otherwise the DELETE
by id runs, and a zero affected-row count maps to record-not-found.  Result:
the table after the call, the returned error, and the count of database
round trips issued. -/
def MovieModel.Delete (db : Table) (dbFail : Option Nat) (id : Int) :
    Table × Option StoreErr × Nat :=
  if id < 1 then (db, some .recordNotFound, 0)
  else
    match dbFail with
    | some e => (db, some (.storageError e), 1)
    | none =>
      let db2 := db.filter (fun r => !(r.ID == id))
      if db.countP (fun r => r.ID == id) == 0 then (db2, some .recordNotFound, 1)
      else (db2, none, 1)

/-- Value of a named column of the movies table as compared by the ORDER BY
clause of GetAll; the columns reachable from the sort safelist are id,
title, year and runtime. -/
inductive ColVal where
  | int (n : Int)
  | str (s : String)
deriving DecidableEq

/-- Column projection used by the interpolated ORDER BY sort key. -/
def colValOf (col : String) (r : Movie) : ColVal :=
  match col with
  | "title" => .str r.Title
  | "year" => .int r.Year
  | "runtime" => .int r.Runtime
  | _ => .int r.ID

/-- Order on column values: numeric columns by the integer order, text
columns by the lexicographic string order. -/
def ColVal.le : ColVal → ColVal → Bool
  | .int a, .int b => decide (a ≤ b)
  | .str a, .str b => decide (a ≤ b)
  | .int _, .str _ => true
  | .str _, .int _ => false

/-- Directional order on the primary sort key: DESC flips the comparison. -/
def colValLe (dir : String) (x y : ColVal) : Bool :=
  if dir == "DESC" then ColVal.le y x else ColVal.le x y

/-- Row order of the ORDER BY clause of GetAll: the interpolated sort column
in the interpolated direction, with the mandatory ascending tie-break on id. -/
def movieLe (col dir : String) (a b : Movie) : Bool :=
  if colValOf col a == colValOf col b then decide (a.ID ≤ b.ID)
  else colValLe dir (colValOf col a) (colValOf col b)

/-- WHERE clause of GetAll, movies.go: the full-text predicate over the
title column (abstract parameter fullText) short-circuited by an empty
query, and genre containment short-circuited by an empty genre list. -/
def whereClause (fullText : String → String → Bool) (title : String)
    (genres : List String) (r : Movie) : Bool :=
  (fullText r.Title title || title == "") &&
  (genres.all (fun g => r.Genres.contains g) || genres == [])

/-- MovieModel.GetAll, movies.go: interpolates the sort column and direction
(a panic of sortColumn is modelled as none), issues the filtered, ordered,
windowed query whose every row also carries count(*) OVER(), scans the rows
in order re-assigning the window count into totalRecords on each row, and
builds the Metadata from totalRecords and the requested page and page size.
A failing round trip returns a nil slice, empty Metadata and the failure. -/
def MovieModel.GetAll (fullText : String → String → Bool) (db : Table)
    (dbFail : Option Nat) (title : String) (genres : List String)
    (filters : Filters) : Option (List Movie × Metadata × Option StoreErr) :=
  match Filters.sortColumn filters with
  | none => none
  | some col =>
    match dbFail with
    | some e => some ([], {}, some (.storageError e))
    | none =>
      let matched := db.filter (whereClause fullText title genres)
      let total : Int := matched.length
      let sorted := List.insertionSort
        (fun a b => movieLe col (Filters.sortDirection filters) a b = true) matched
      let page := (sorted.drop (Filters.offset filters).toNat).take
        (Filters.limit filters).toNat
      let totalRecords := page.foldl (fun _ _ => total) 0
      some (page, calculateMetadata totalRecords filters.Page filters.PageSize, none)

/-- Exit paths of MovieModel.GetAll: success after scanning some rows, a
failure of the query round trip, a scan failure after some rows already
scanned, and a failure reported by rows.Err after the loop. -/
inductive GetAllExit where
  | success (nRows : Nat)
  | queryError
  | scanError (rowsBefore : Nat)
  | rowsErrError (nRows : Nat)
deriving DecidableEq

/-- Calls observable from the GetAll body that touch the context or the
resultset handle. -/
inductive DBCall where
  | queryOpen
  | scanRow
  | rowsClose
  | cancelCtx
deriving DecidableEq

/-- Call trace of the GetAll body on each exit path, as written in the
source: cancel is deferred before the query and deferred a second time right
after the query where the comment announces a deferred rows.Close; the body
contains no call to rows.Close, so the deferred calls run at return are
cancel only (one registered on the query-error path, both on the others). -/
def getAllCalls : GetAllExit → List DBCall
  | .queryError => [.queryOpen, .cancelCtx]
  | .scanError k => .queryOpen :: (List.replicate (k + 1) .scanRow ++ [.cancelCtx, .cancelCtx])
  | .success n => .queryOpen :: (List.replicate n .scanRow ++ [.cancelCtx, .cancelCtx])
  | .rowsErrError n => .queryOpen :: (List.replicate n .scanRow ++ [.cancelCtx, .cancelCtx])

/-- Filters value used by page number i + 1 of a paging sweep with fixed
page size, sort value and safelist. -/
def pageFilters (p : Nat) (sort : String) (safelist : List String) (i : Nat) : Filters :=
  ⟨(i : Int) + 1, (p : Int), sort, safelist⟩

/-- Rows returned by GetAll for page number i + 1 of a paging sweep. -/
def pageRows (fullText : String → String → Bool) (db : Table) (title : String)
    (genres : List String) (p : Nat) (sort : String) (safelist : List String)
    (i : Nat) : List Movie :=
  match MovieModel.GetAll fullText db none title genres (pageFilters p sort safelist i) with
  | some (rows, _, _) => rows
  | none => []

/-!
Theorems.  Helper lemmas come first, then one theorem per claim, each with
its witness where the statement carries hypotheses.
-/

/-- ceilDiv agrees with the exact rational ceiling for a positive divisor. -/
theorem ceilDiv_eq_ceil (t p : Int) (hp : 0 < p) : ceilDiv t p = ⌈(t : ℚ) / (p : ℚ)⌉ := by
  have hpq : (0 : ℚ) < (p : ℚ) := by exact_mod_cast hp
  have hdiv : (-t) / p = Int.ediv (-t) p := rfl
  have hq := Int.ediv_add_emod (-t) p
  rw [hdiv] at hq
  have hr0 : 0 ≤ (-t) % p := Int.emod_nonneg _ (by omega)
  have hrp : (-t) % p < p := Int.emod_lt_of_pos _ hp
  set q : Int := Int.ediv (-t) p with hqdef
  set r : Int := (-t) % p with hrdef
  symm
  rw [Int.ceil_eq_iff]
  have ht : (t : ℚ) = -((p : ℚ) * (q : ℚ)) - (r : ℚ) := by
    have h2 : (t : Int) = -(p * q) - r := by omega
    exact_mod_cast congrArg (fun z : Int => (z : ℚ)) h2
  constructor
  · rw [lt_div_iff₀ hpq, ceilDiv, ht]
    push_cast
    have hrpq : (r : ℚ) < (p : ℚ) := by exact_mod_cast hrp
    ring_nf
    nlinarith [hrpq]
  · rw [div_le_iff₀ hpq, ceilDiv, ht]
    push_cast
    have hr0q : (0 : ℚ) ≤ (r : ℚ) := by exact_mod_cast hr0
    nlinarith [hr0q]

/-- An accumulated-valid Check means the incoming state was valid and the
check held. -/
theorem validator_check_valid (v : Validator) (ok : Bool) (key message : String)
    (h : (v.Check ok key message).Valid = true) : v.Valid = true ∧ ok = true := by
  cases ok with
  | true => exact ⟨h, rfl⟩
  | false =>
    exfalso
    have hc : v.Check false key message = v.AddError key message := rfl
    rw [hc] at h
    rw [Validator.AddError] at h
    by_cases hk : v.Errors.any (fun p => p.1 == key) = true
    · rw [if_pos hk] at h
      rw [Validator.Valid, List.isEmpty_iff] at h
      rw [h] at hk
      simp at hk
    · rw [if_neg hk] at h
      rw [Validator.Valid, List.isEmpty_iff] at h
      simp at h

/-- A Filters value passing ValidateFilters on a fresh Validator satisfies
the documented bounds and safelist membership. -/
theorem validateFilters_bounds (f : Filters)
    (h : (ValidateFilters Validator.New f).Valid = true) :
    0 < f.Page ∧ f.Page ≤ 10000000 ∧ 0 < f.PageSize ∧ f.PageSize ≤ 100 ∧
      f.SortKey ∈ f.SortSafelist := by
  rw [ValidateFilters] at h
  have h1 := validator_check_valid _ _ _ _ h
  have h2 := validator_check_valid _ _ _ _ h1.1
  have h3 := validator_check_valid _ _ _ _ h2.1
  have h4 := validator_check_valid _ _ _ _ h3.1
  have h5 := validator_check_valid _ _ _ _ h4.1
  refine ⟨of_decide_eq_true h5.2, of_decide_eq_true h4.2, of_decide_eq_true h3.2,
    of_decide_eq_true h2.2, ?_⟩
  have hin := h1.2
  rw [Validator.In] at hin
  simpa using hin

/-- wrap64 is the identity inside the representable range. -/
theorem wrap64_eq_self (n : Int) (h0 : -(2 ^ 63) ≤ n) (h1 : n < 2 ^ 63) : wrap64 n = n := by
  rw [wrap64, Int.emod_eq_of_lt (by omega) (by omega)]
  ring

/-- C4 (code bug in the source): the body of GetAll never closes the
resultset handle on any exit path — the second deferred call, written where
the source comment announces a deferred rows.Close, is a second cancel of
the timeout context, so no rows.Close call occurs in any call trace,
including the early-return path of a scan failure mid-iteration. -/
theorem getAll_never_closes_resultset :
    ∀ e : GetAllExit, DBCall.rowsClose ∉ getAllCalls e := by
  intro e
  cases e <;> simp [getAllCalls, List.mem_replicate]

/-- C5: calculateMetadata returns the all-zero Metadata whenever
totalRecords is zero, for every page and pageSize; for positive totalRecords
and pageSize it returns CurrentPage page, PageSize pageSize, FirstPage 1,
LastPage the ceiling of totalRecords over pageSize, TotalRecords
totalRecords; and calculateMetadata 195 2 20 is the stated record. -/
theorem calculateMetadata_spec :
    (∀ page pageSize : Int, calculateMetadata 0 page pageSize = {})
    ∧ (∀ t page p : Int, 0 < t → 0 < p →
        calculateMetadata t page p =
          { CurrentPage := page, PageSize := p, FirstPage := 1,
            LastPage := ⌈(t : ℚ) / (p : ℚ)⌉, TotalRecords := t })
    ∧ calculateMetadata 195 2 20 =
        { CurrentPage := 2, PageSize := 20, FirstPage := 1, LastPage := 10,
          TotalRecords := 195 } := by
  refine ⟨fun page pageSize => rfl, fun t page p ht hp => ?_, by decide⟩
  rw [calculateMetadata, if_neg (by simp [ht.ne'])]
  rw [ceilDiv_eq_ceil t p hp]

/-- Witness for C5 at totalRecords 195, page 2, pageSize 20. -/
theorem calculateMetadata_spec_witness :
    calculateMetadata 195 2 20 =
      { CurrentPage := 2, PageSize := 20, FirstPage := 1,
        LastPage := ⌈(195 : ℚ) / (20 : ℚ)⌉, TotalRecords := 195 } :=
  calculateMetadata_spec.2.1 195 2 20 (by decide) (by decide)

/-- C8: for a Sort value in the safelist, sortColumn returns the value with
one leading hyphen stripped and cannot panic; for a Sort value outside the
safelist it reaches the panic (modelled as none), never a recoverable
validation error. -/
theorem sortColumn_spec (f : Filters) :
    (f.SortKey ∈ f.SortSafelist →
      Filters.sortColumn f =
        some (if hasPre f.SortKey "-" then ⟨f.SortKey.data.drop 1⟩ else f.SortKey))
    ∧ (f.SortKey ∉ f.SortSafelist → Filters.sortColumn f = none) := by
  constructor
  · intro hmem
    cases hfind : f.SortSafelist.find? (fun safeValue => f.SortKey == safeValue) with
    | none =>
      have hno := List.find?_eq_none.mp hfind f.SortKey hmem
      simp at hno
    | some s =>
      simp only [Filters.sortColumn, hfind]
      congr 1
  · intro hmem
    have hfind : f.SortSafelist.find? (fun safeValue => f.SortKey == safeValue) = none := by
      rw [List.find?_eq_none]
      intro a ha hba
      rw [beq_iff_eq] at hba
      exact hmem (hba ▸ ha)
    simp only [Filters.sortColumn, hfind]

/-- Witness for C8: a descending safelist member resolves to its column, and
a non-member panics. -/
theorem sortColumn_spec_witness :
    Filters.sortColumn ⟨1, 20, "-year", ["year", "-year"]⟩ = some "year"
    ∧ Filters.sortColumn ⟨1, 20, "-id", ["year", "-year"]⟩ = none := by
  constructor
  · rw [(sortColumn_spec ⟨1, 20, "-year", ["year", "-year"]⟩).1 (by decide)]
    decide
  · exact (sortColumn_spec ⟨1, 20, "-id", ["year", "-year"]⟩).2 (by decide)

/-- C9: for every Filters passing ValidateFilters, offset equals
(Page - 1) * PageSize exactly (the 64-bit product cannot wrap under the
validated bounds), limit equals PageSize, and sortDirection is DESC exactly
when the Sort value starts with a hyphen, ASC otherwise. -/
theorem filters_derived_spec (f : Filters)
    (h : (ValidateFilters Validator.New f).Valid = true) :
    Filters.offset f = (f.Page - 1) * f.PageSize
    ∧ Filters.limit f = f.PageSize
    ∧ (Filters.sortDirection f = "DESC" ↔ hasPre f.SortKey "-" = true)
    ∧ (Filters.sortDirection f = "ASC" ↔ hasPre f.SortKey "-" = false) := by
  obtain ⟨hp1, hp2, hs1, hs2, _⟩ := validateFilters_bounds f h
  refine ⟨?_, rfl, ?_, ?_⟩
  · rw [Filters.offset]
    have hlo : (0 : Int) ≤ (f.Page - 1) * f.PageSize :=
      mul_nonneg (by omega) (by omega)
    have hhi : (f.Page - 1) * f.PageSize ≤ 9999999 * 100 :=
      mul_le_mul (by omega) (by omega) (by omega) (by omega)
    exact wrap64_eq_self _ (by omega) (by omega)
  · rw [Filters.sortDirection]
    cases hsw : hasPre f.SortKey "-" <;> simp [hsw]
  · rw [Filters.sortDirection]
    cases hsw : hasPre f.SortKey "-" <;> simp [hsw]

/-- Witness for C9 at Page 3, PageSize 25, Sort -id. -/
theorem filters_derived_spec_witness :
    Filters.offset ⟨3, 25, "-id", ["id", "-id"]⟩ = (3 - 1) * 25
    ∧ Filters.limit ⟨3, 25, "-id", ["id", "-id"]⟩ = 25
    ∧ (Filters.sortDirection ⟨3, 25, "-id", ["id", "-id"]⟩ = "DESC"
        ↔ hasPre "-id" "-" = true)
    ∧ (Filters.sortDirection ⟨3, 25, "-id", ["id", "-id"]⟩ = "ASC"
        ↔ hasPre "-id" "-" = false) :=
  filters_derived_spec ⟨3, 25, "-id", ["id", "-id"]⟩ (by decide)

/-- C10: an Update returning an error leaves the passed Movie exactly as it
was, every field included; a successful Update changes only the Version
field, to the old Version plus one. -/
theorem update_mutation_spec (db : Table) (dbFail : Option Nat) (m : Movie) :
    ((MovieModel.Update db dbFail m).2.2 ≠ none → (MovieModel.Update db dbFail m).2.1 = m)
    ∧ ((MovieModel.Update db dbFail m).2.2 = none →
        (MovieModel.Update db dbFail m).2.1 = { m with Version := m.Version + 1 }) := by
  cases dbFail with
  | some e =>
    refine ⟨fun _ => rfl, fun hnone => ?_⟩
    simp [MovieModel.Update] at hnone
  | none =>
    cases hfind : db.find? (updMatch m) with
    | none =>
      refine ⟨fun _ => ?_, fun hnone => ?_⟩
      · simp [MovieModel.Update, updateWhere, hfind]
      · simp [MovieModel.Update, updateWhere, hfind] at hnone
    | some r =>
      have hr : updMatch m r = true := List.find?_some hfind
      have hrv : r.Version = m.Version := by
        rw [updMatch, Bool.and_eq_true] at hr
        exact beq_iff_eq.mp hr.2
      refine ⟨fun hne => ?_, fun _ => ?_⟩
      · exfalso
        apply hne
        simp [MovieModel.Update, updateWhere, hfind]
      · simp [MovieModel.Update, updateWhere, hfind, hrv]

/-- Witness for C10: a failed and a successful Update at concrete inputs. -/
theorem update_mutation_spec_witness :
    (MovieModel.Update [] none ⟨1, 0, "t", 2000, 100, ["d"], 1⟩).2.1 =
      ⟨1, 0, "t", 2000, 100, ["d"], 1⟩
    ∧ (MovieModel.Update [⟨1, 0, "s", 1999, 90, ["c"], 1⟩] none
        ⟨1, 0, "t", 2000, 100, ["d"], 1⟩).2.1 =
      { (⟨1, 0, "t", 2000, 100, ["d"], 1⟩ : Movie) with Version := (1 : Int) + 1 } :=
  ⟨(update_mutation_spec [] none _).1 (by decide),
   (update_mutation_spec [⟨1, 0, "s", 1999, 90, ["c"], 1⟩] none _).2 (by decide)⟩

/-- C7: both Get and Delete short-circuit an id below one to the
record-not-found sentinel with no database round trip; for a positive id,
Get yields record-not-found exactly when no row with that id exists and
passes any other database failure through, and Delete yields
record-not-found exactly when the DELETE affects zero rows. -/
theorem get_delete_spec :
    (∀ (db : Table) (dbFail : Option Nat) (id : Int), id < 1 →
        MovieModel.Get db dbFail id = (.error .recordNotFound, 0)
        ∧ MovieModel.Delete db dbFail id = (db, some .recordNotFound, 0))
    ∧ (∀ (db : Table) (id : Int), 1 ≤ id →
        ((MovieModel.Get db none id).1 = .error .recordNotFound ↔ ∀ r ∈ db, r.ID ≠ id))
    ∧ (∀ (db : Table) (id : Int) (e : Nat), 1 ≤ id →
        (MovieModel.Get db (some e) id).1 = .error (.storageError e))
    ∧ (∀ (db : Table) (id : Int), 1 ≤ id →
        ((MovieModel.Delete db none id).2.1 = some .recordNotFound ↔
          db.countP (fun r => r.ID == id) = 0)) := by
  refine ⟨fun db dbFail id hid => ⟨?_, ?_⟩, fun db id hid => ?_,
    fun db id e hid => ?_, fun db id hid => ?_⟩
  · rw [MovieModel.Get.eq_def, if_pos hid]
  · rw [MovieModel.Delete.eq_def, if_pos hid]
  · rw [MovieModel.Get.eq_def, if_neg (by omega)]
    cases hfind : db.find? (fun r => r.ID == id) with
    | none =>
      simp only [hfind]
      constructor
      · intro _ r hr hreq
        have hno := List.find?_eq_none.mp hfind r hr
        simp [hreq] at hno
      · intro _
        trivial
    | some r =>
      have hmem := List.mem_of_find?_eq_some hfind
      have hrid : r.ID = id := by
        have hp := List.find?_some hfind
        simpa using hp
      simp only [hfind]
      constructor
      · intro hcontra
        simp at hcontra
      · intro hall
        exact absurd hrid (hall r hmem)
  · rw [MovieModel.Get.eq_def, if_neg (by omega)]
  · rw [MovieModel.Delete.eq_def, if_neg (by omega)]
    cases hc : db.countP (fun r => r.ID == id) with
    | zero => simp [hc]
    | succ n => simp [hc]

/-- Witness for C7 at concrete inputs covering each conjunct. -/
theorem get_delete_spec_witness :
    (MovieModel.Get [] none 0 = (.error .recordNotFound, 0)
      ∧ MovieModel.Delete [] none 0 = ([], some .recordNotFound, 0))
    ∧ ((MovieModel.Get [] none 1).1 = .error .recordNotFound ↔ ∀ r ∈ ([] : Table), r.ID ≠ 1)
    ∧ (MovieModel.Get [] (some 7) 1).1 = .error (.storageError 7)
    ∧ ((MovieModel.Delete [] none 1).2.1 = some .recordNotFound ↔
        List.countP (fun r => r.ID == 1) ([] : Table) = 0) :=
  ⟨get_delete_spec.1 [] none 0 (by decide),
   get_delete_spec.2.1 [] 1 (by decide),
   get_delete_spec.2.2.1 [] 1 7 (by decide),
   get_delete_spec.2.2.2 [] 1 (by decide)⟩

/-- A non-matching row is untouched by the conditional UPDATE. -/
theorem updRow_eq_self {m x : Movie} (h : updMatch m x = false) : updRow m x = x := by
  simp [updRow, h]

/-- A table with no matching row is untouched by the conditional UPDATE. -/
theorem map_updRow_id (m : Movie) (l : Table) (hl : ∀ x ∈ l, updMatch m x = false) :
    l.map (updRow m) = l := by
  induction l with
  | nil => rfl
  | cons a t ih =>
    rw [List.map_cons, updRow_eq_self (hl a (by simp)),
      ih (fun x hx => hl x (by simp [hx]))]

/-- The row scan of the conditional UPDATE finds the matching row when no
earlier row matches. -/
theorem find?_updMatch_append (m : Movie) (db1 db2 : Table) (r : Movie)
    (h1 : ∀ x ∈ db1, updMatch m x = false) (hr : updMatch m r = true) :
    (db1 ++ r :: db2).find? (updMatch m) = some r := by
  induction db1 with
  | nil => simpa using List.find?_cons_of_pos _ hr
  | cons a t ih =>
    rw [List.cons_append, List.find?_cons_of_neg _ (by simp [h1 a (by simp)]),
      ih (fun x hx => h1 x (by simp [hx]))]

/-- The table after an Update on a working round trip is the pointwise
conditional rewrite of the old table. -/
theorem update_table_eq (db : Table) (m : Movie) :
    (MovieModel.Update db none m).1 = db.map (updRow m) := by
  cases hfind : db.find? (updMatch m) <;> simp [MovieModel.Update, updateWhere, hfind]

/-- An Update on a working round trip succeeds exactly when a row matching
the carried ID and Version exists. -/
theorem update_success_iff (db : Table) (m : Movie) :
    (MovieModel.Update db none m).2.2 = none ↔ ∃ r ∈ db, updMatch m r = true := by
  constructor
  · intro hsucc
    cases hfind : db.find? (updMatch m) with
    | none => simp [MovieModel.Update, updateWhere, hfind] at hsucc
    | some r => exact ⟨r, List.mem_of_find?_eq_some hfind, List.find?_some hfind⟩
  · rintro ⟨r, hr, hmr⟩
    cases hfind : db.find? (updMatch m) with
    | none =>
      have hno := List.find?_eq_none.mp hfind r hr
      rw [hmr] at hno
      simp at hno
    | some r2 => simp [MovieModel.Update, updateWhere, hfind]

/-- C1: a working Update issues the one conditional write keyed on the
carried ID and exact Version: when zero rows match it returns the
edit-conflict sentinel (and an Update can never return record-not-found on
any path); when the row with that ID still carries the expected Version, the
write replaces exactly that row, incrementing its stored Version by exactly
one, and writes the new Version back into the passed Movie. -/
theorem update_conditional_write :
    (∀ (db : Table) (m : Movie),
        (∀ r ∈ db, ¬(r.ID = m.ID ∧ r.Version = m.Version)) →
        MovieModel.Update db none m = (db, m, some .editConflict))
    ∧ (∀ (db1 db2 : Table) (r m : Movie),
        ((db1 ++ r :: db2).map Movie.ID).Nodup →
        r.ID = m.ID → r.Version = m.Version →
        MovieModel.Update (db1 ++ r :: db2) none m =
          (db1 ++ { r with Title := m.Title, Year := m.Year, Runtime := m.Runtime,
                           Genres := m.Genres, Version := r.Version + 1 } :: db2,
           { m with Version := m.Version + 1 }, none))
    ∧ (∀ (db : Table) (dbFail : Option Nat) (m : Movie),
        (MovieModel.Update db dbFail m).2.2 ≠ some .recordNotFound) := by
  refine ⟨?_, ?_, ?_⟩
  · intro db m hno
    have hfalse : ∀ x ∈ db, updMatch m x = false := by
      intro x hx
      cases hmx : updMatch m x with
      | false => rfl
      | true =>
        rw [updMatch, Bool.and_eq_true, beq_iff_eq, beq_iff_eq] at hmx
        exact absurd ⟨hmx.1, hmx.2⟩ (hno x hx)
    have hfind : db.find? (updMatch m) = none := by
      rw [List.find?_eq_none]
      intro x hx
      simp [hfalse x hx]
    have hmap := map_updRow_id m db hfalse
    simp [MovieModel.Update, updateWhere, hfind, hmap]
  · intro db1 db2 r m hnodup hrID hrV
    have hmatch : updMatch m r = true := by
      rw [updMatch, Bool.and_eq_true, beq_iff_eq, beq_iff_eq]
      exact ⟨hrID, hrV⟩
    rw [List.map_append, List.map_cons, List.nodup_append] at hnodup
    obtain ⟨hn1, hn2, hdisj⟩ := hnodup
    rw [List.nodup_cons] at hn2
    have hids : ∀ x ∈ db1 ++ db2, x.ID ≠ r.ID := by
      intro x hx hxr
      rcases List.mem_append.mp hx with hx1 | hx2
      · exact hdisj (List.mem_map_of_mem Movie.ID hx1) (by rw [hxr]; exact List.mem_cons_self _ _)
      · exact hn2.1 (hxr ▸ List.mem_map_of_mem Movie.ID hx2)
    have hfalse : ∀ x ∈ db1 ++ db2, updMatch m x = false := by
      intro x hx
      cases hmx : updMatch m x with
      | false => rfl
      | true =>
        rw [updMatch, Bool.and_eq_true, beq_iff_eq, beq_iff_eq] at hmx
        exact absurd (hmx.1.trans hrID.symm) (hids x hx)
    have hfalse1 : ∀ x ∈ db1, updMatch m x = false :=
      fun x hx => hfalse x (List.mem_append_left _ hx)
    have hfalse2 : ∀ x ∈ db2, updMatch m x = false :=
      fun x hx => hfalse x (List.mem_append_right _ hx)
    have hfind := find?_updMatch_append m db1 db2 r hfalse1 hmatch
    have hmap : (db1 ++ r :: db2).map (updRow m) =
        db1 ++ { r with Title := m.Title, Year := m.Year, Runtime := m.Runtime,
                        Genres := m.Genres, Version := r.Version + 1 } :: db2 := by
      rw [List.map_append, List.map_cons, map_updRow_id m db1 hfalse1,
        map_updRow_id m db2 hfalse2, updRow, if_pos hmatch]
    simp [MovieModel.Update, updateWhere, hfind, hmap, hrV]
  · intro db dbFail m
    cases dbFail with
    | some e => simp [MovieModel.Update]
    | none =>
      cases hfind : db.find? (updMatch m) with
      | none => simp [MovieModel.Update, updateWhere, hfind]
      | some r => simp [MovieModel.Update, updateWhere, hfind]

/-- Witness for C1: a no-match table, a matching one-row table, and the
never-record-not-found conjunct, at concrete inputs. -/
theorem update_conditional_write_witness :
    MovieModel.Update [] none ⟨1, 0, "t", 2000, 100, ["d"], 1⟩ =
      ([], ⟨1, 0, "t", 2000, 100, ["d"], 1⟩, some .editConflict)
    ∧ MovieModel.Update ([] ++ ⟨1, 0, "old", 1999, 90, ["a"], 5⟩ :: []) none
        ⟨1, 0, "new", 2000, 95, ["b"], 5⟩ =
      ([] ++ { (⟨1, 0, "old", 1999, 90, ["a"], 5⟩ : Movie) with
                 Title := "new", Year := 2000, Runtime := 95, Genres := ["b"],
                 Version := (5 : Int) + 1 } :: [],
       { (⟨1, 0, "new", 2000, 95, ["b"], 5⟩ : Movie) with Version := (5 : Int) + 1 }, none)
    ∧ (MovieModel.Update [] none ⟨1, 0, "t", 2000, 100, ["d"], 1⟩).2.2 ≠ some .recordNotFound :=
  ⟨update_conditional_write.1 [] _ (by decide),
   update_conditional_write.2.1 [] [] ⟨1, 0, "old", 1999, 90, ["a"], 5⟩
     ⟨1, 0, "new", 2000, 95, ["b"], 5⟩ (by decide) rfl rfl,
   update_conditional_write.2.2 [] none _⟩

/-- C2: two Updates carrying the same ID and the same starting Version,
run one after the other in either order (the database serialises the two
conditional writes), can never both succeed; when the matching row exists
the first wins and the second observes the edit-conflict sentinel. -/
theorem update_cas_exclusion (db : Table) (m1 m2 : Movie)
    (hid : m1.ID = m2.ID) (hv : m1.Version = m2.Version) :
    ((MovieModel.Update db none m1).2.2 = none →
      (MovieModel.Update (MovieModel.Update db none m1).1 none m2).2.2 = some .editConflict)
    ∧ ¬((MovieModel.Update db none m1).2.2 = none
        ∧ (MovieModel.Update (MovieModel.Update db none m1).1 none m2).2.2 = none)
    ∧ ((∃ r ∈ db, r.ID = m1.ID ∧ r.Version = m1.Version) →
        (MovieModel.Update db none m1).2.2 = none
        ∧ (MovieModel.Update (MovieModel.Update db none m1).1 none m2).2.2 =
            some .editConflict) := by
  have key : (MovieModel.Update db none m1).2.2 = none →
      (MovieModel.Update (MovieModel.Update db none m1).1 none m2).2.2 =
        some .editConflict := by
    intro hsucc
    rw [update_table_eq]
    have hfind2 : (db.map (updRow m1)).find? (updMatch m2) = none := by
      rw [List.find?_eq_none]
      intro x' hx'
      obtain ⟨x, hx, hxx⟩ := List.mem_map.mp hx'
      subst hxx
      cases hmx : updMatch m1 x with
      | true =>
        have hxv : x.Version = m1.Version := by
          have h2 := hmx
          rw [updMatch, Bool.and_eq_true, beq_iff_eq, beq_iff_eq] at h2
          exact h2.2
        intro hcontra
        rw [updRow, if_pos hmx, updMatch, Bool.and_eq_true, beq_iff_eq, beq_iff_eq] at hcontra
        have : x.Version + 1 = m2.Version := hcontra.2
        rw [← hv, ← hxv] at this
        omega
      | false =>
        intro hcontra
        rw [updRow_eq_self hmx, updMatch, Bool.and_eq_true, beq_iff_eq, beq_iff_eq,
          ← hid, ← hv] at hcontra
        have : updMatch m1 x = true := by
          rw [updMatch, Bool.and_eq_true, beq_iff_eq, beq_iff_eq]
          exact hcontra
        rw [this] at hmx
        exact Bool.noConfusion hmx
    simp [MovieModel.Update, updateWhere, hfind2]
  refine ⟨key, fun hboth => ?_, fun hex => ?_⟩
  · have h2 := key hboth.1
    rw [hboth.2] at h2
    exact Option.noConfusion h2
  · have hsucc : (MovieModel.Update db none m1).2.2 = none := by
      rw [update_success_iff]
      obtain ⟨r, hr, h1, h2⟩ := hex
      refine ⟨r, hr, ?_⟩
      rw [updMatch, Bool.and_eq_true, beq_iff_eq, beq_iff_eq]
      exact ⟨h1, h2⟩
    exact ⟨hsucc, key hsucc⟩

/-- Witness for C2: two racing Updates with the same ID and Version against
a one-row table; the first succeeds, the second hits the edit conflict. -/
theorem update_cas_exclusion_witness :
    (MovieModel.Update [⟨1, 0, "old", 1999, 90, ["a"], 5⟩] none
        ⟨1, 0, "new", 2000, 95, ["b"], 5⟩).2.2 = none
    ∧ (MovieModel.Update
        (MovieModel.Update [⟨1, 0, "old", 1999, 90, ["a"], 5⟩] none
          ⟨1, 0, "new", 2000, 95, ["b"], 5⟩).1 none
        ⟨1, 0, "new", 2000, 95, ["b"], 5⟩).2.2 = some .editConflict :=
  (update_cas_exclusion [⟨1, 0, "old", 1999, 90, ["a"], 5⟩]
      ⟨1, 0, "new", 2000, 95, ["b"], 5⟩ ⟨1, 0, "new", 2000, 95, ["b"], 5⟩ rfl rfl).2.2
    ⟨⟨1, 0, "old", 1999, 90, ["a"], 5⟩, by decide, rfl, rfl⟩

/-- A fold that overwrites its accumulator with a constant yields the
constant on any non-empty list. -/
theorem foldl_const_overwrite {α : Type} (t a : Int) (x : α) (xs : List α) :
    (x :: xs).foldl (fun _ _ => t) a = t := by
  induction xs generalizing a x with
  | nil => rfl
  | cons y ys ih => exact ih t y

/-- C3 counterexample: a table holding one matching row, queried at page 2
of size 20 (offset beyond the last matching row): GetAll returns zero rows
and the all-zero Metadata, whose TotalRecords is 0, although one matching
row exists — the count is scanned only from returned rows, and none were
returned. -/
theorem getall_total_records_cex :
    MovieModel.GetAll (fun _ _ => false) [⟨1, 0, "a", 2000, 100, ["d"], 1⟩] none "" []
        ⟨2, 20, "id", ["id"]⟩ = some ([], {}, none)
    ∧ (([⟨1, 0, "a", 2000, 100, ["d"], 1⟩] : Table).filter
        (whereClause (fun _ _ => false) "" [])).length = 1 :=
  ⟨by decide, by decide⟩

/-- C3 amended: on a successful GetAll, Metadata.TotalRecords equals the
logical number of rows matching the title and genres filter across all pages
whenever the requested page returns at least one row; a page that returns
zero rows yields the all-zero Metadata, so TotalRecords is then 0 even when
matching rows exist. -/
theorem getall_total_records (fullText : String → String → Bool) (db : Table)
    (title : String) (genres : List String) (filters : Filters)
    (P : List Movie) (M : Metadata) (e : Option StoreErr)
    (h : MovieModel.GetAll fullText db none title genres filters = some (P, M, e)) :
    (P ≠ [] →
      M.TotalRecords = ((db.filter (whereClause fullText title genres)).length : Int))
    ∧ (P = [] → M = {}) := by
  cases hcol : Filters.sortColumn filters with
  | none =>
    rw [MovieModel.GetAll.eq_def, hcol] at h
    exact Option.noConfusion h
  | some col =>
    simp only [MovieModel.GetAll, hcol, Option.some.injEq, Prod.mk.injEq] at h
    obtain ⟨hP, hM, he⟩ := h
    rw [hP] at hM
    constructor
    · intro hne
      obtain ⟨y, ys, hcons⟩ := List.exists_cons_of_ne_nil hne
      rw [hcons, foldl_const_overwrite] at hM
      rw [← hM]
      by_cases hzero : ((db.filter (whereClause fullText title genres)).length : Int) = 0
      · exfalso
        have hml : (db.filter (whereClause fullText title genres)).length = 0 := by
          exact_mod_cast hzero
        have hperm := List.perm_insertionSort
          (fun a b => movieLe col (Filters.sortDirection filters) a b = true)
          (db.filter (whereClause fullText title genres))
        have hse : List.insertionSort
            (fun a b => movieLe col (Filters.sortDirection filters) a b = true)
            (db.filter (whereClause fullText title genres)) = [] :=
          List.eq_nil_of_length_eq_zero (by rw [hperm.length_eq, hml])
        apply hne
        rw [← hP, hse]
        simp
      · rw [calculateMetadata, if_neg (by simpa using hzero)]
    · intro hPe
      rw [hPe] at hM
      rw [← hM]
      rfl

/-- Witness for C3 at a one-row table and page 1 of size 20. -/
theorem getall_total_records_witness :
    (([⟨1, 0, "a", 2000, 100, ["d"], 1⟩] : List Movie) ≠ [] →
      (⟨1, 20, 1, 1, 1⟩ : Metadata).TotalRecords =
        ((([⟨1, 0, "a", 2000, 100, ["d"], 1⟩] : Table).filter
            (whereClause (fun _ _ => false) "" [])).length : Int))
    ∧ (([⟨1, 0, "a", 2000, 100, ["d"], 1⟩] : List Movie) = [] →
        (⟨1, 20, 1, 1, 1⟩ : Metadata) = {}) :=
  getall_total_records (fun _ _ => false) [⟨1, 0, "a", 2000, 100, ["d"], 1⟩] "" []
    ⟨1, 20, "id", ["id"]⟩ [⟨1, 0, "a", 2000, 100, ["d"], 1⟩] ⟨1, 20, 1, 1, 1⟩ none (by decide)

/-- The column-value order is total. -/
theorem colVal_le_total (x y : ColVal) : (ColVal.le x y || ColVal.le y x) = true := by
  cases x with
  | int a =>
    cases y with
    | int b => simpa [ColVal.le] using le_total a b
    | str s => simp [ColVal.le]
  | str s =>
    cases y with
    | int b => simp [ColVal.le]
    | str t => simpa [ColVal.le] using le_total s t

/-- The column-value order is transitive. -/
theorem colVal_le_trans (x y z : ColVal) (hxy : ColVal.le x y = true)
    (hyz : ColVal.le y z = true) : ColVal.le x z = true := by
  cases x <;> cases y <;> cases z <;>
    simp only [ColVal.le, decide_eq_true_eq, Bool.false_eq_true] at hxy hyz ⊢ <;>
    first
    | trivial
    | exact le_trans hxy hyz

/-- The column-value order is antisymmetric. -/
theorem colVal_le_antisymm (x y : ColVal) (hxy : ColVal.le x y = true)
    (hyx : ColVal.le y x = true) : x = y := by
  cases x <;> cases y <;>
    simp only [ColVal.le, decide_eq_true_eq, Bool.false_eq_true] at hxy hyx <;>
    first
    | exact congrArg ColVal.int (le_antisymm hxy hyx)
    | exact congrArg ColVal.str (le_antisymm hxy hyx)

/-- The directional column order is total. -/
theorem colValLe_total (dir : String) (x y : ColVal) :
    (colValLe dir x y || colValLe dir y x) = true := by
  rw [colValLe, colValLe]
  by_cases hd : (dir == "DESC") = true
  · rw [if_pos hd, if_pos hd, Bool.or_comm]
    exact colVal_le_total x y
  · rw [if_neg hd, if_neg hd]
    exact colVal_le_total x y

/-- The directional column order is transitive. -/
theorem colValLe_trans (dir : String) (x y z : ColVal) (hxy : colValLe dir x y = true)
    (hyz : colValLe dir y z = true) : colValLe dir x z = true := by
  rw [colValLe] at hxy hyz ⊢
  by_cases hd : (dir == "DESC") = true
  · rw [if_pos hd] at hxy hyz ⊢
    exact colVal_le_trans z y x hyz hxy
  · rw [if_neg hd] at hxy hyz ⊢
    exact colVal_le_trans x y z hxy hyz

/-- The directional column order is antisymmetric. -/
theorem colValLe_antisymm (dir : String) (x y : ColVal) (hxy : colValLe dir x y = true)
    (hyx : colValLe dir y x = true) : x = y := by
  rw [colValLe] at hxy hyx
  by_cases hd : (dir == "DESC") = true
  · rw [if_pos hd] at hxy hyx
    exact colVal_le_antisymm x y hyx hxy
  · rw [if_neg hd] at hxy hyx
    exact colVal_le_antisymm x y hxy hyx

/-- The ORDER BY row order is transitive. -/
theorem movieLe_trans (col dir : String) (a b c : Movie)
    (hab : movieLe col dir a b = true) (hbc : movieLe col dir b c = true) :
    movieLe col dir a c = true := by
  rw [movieLe] at hab hbc ⊢
  by_cases h1 : colValOf col a = colValOf col b <;>
    by_cases h2 : colValOf col b = colValOf col c
  · rw [if_pos (by simp [h1.trans h2])]
    rw [if_pos (by simp [h1])] at hab
    rw [if_pos (by simp [h2])] at hbc
    simp only [decide_eq_true_eq] at hab hbc ⊢
    exact le_trans hab hbc
  · have hxz : colValOf col a ≠ colValOf col c := fun hc => h2 (h1 ▸ hc)
    rw [if_neg (by simp [hxz])]
    rw [if_neg (by simp [h2])] at hbc
    rw [h1]
    exact hbc
  · have hxz : colValOf col a ≠ colValOf col c := fun hc => h1 (hc.trans h2.symm)
    rw [if_neg (by simp [hxz])]
    rw [if_neg (by simp [h1])] at hab
    rw [← h2]
    exact hab
  · rw [if_neg (by simp [h1])] at hab
    rw [if_neg (by simp [h2])] at hbc
    have hxz : colValOf col a ≠ colValOf col c := by
      intro hc
      apply h1
      rw [← hc] at hbc
      exact colValLe_antisymm dir _ _ hab hbc
    rw [if_neg (by simp [hxz])]
    exact colValLe_trans dir _ _ _ hab hbc

/-- The ORDER BY row order is total. -/
theorem movieLe_total (col dir : String) (a b : Movie) :
    (movieLe col dir a b || movieLe col dir b a) = true := by
  rw [movieLe, movieLe]
  by_cases h : colValOf col a = colValOf col b
  · rw [if_pos (by simp [h]), if_pos (by simp [h.symm])]
    simpa using le_total a.ID b.ID
  · rw [if_neg (by simp [h]), if_neg (by simp [Ne.symm h])]
    exact colValLe_total dir _ _

/-- The ORDER BY row order spelt out: strictly smaller primary sort key in
the requested direction, or equal primary keys and the ascending id
tie-break. -/
theorem movieLe_iff (col dir : String) (a b : Movie) :
    movieLe col dir a b = true ↔
      (colValOf col a = colValOf col b ∧ a.ID ≤ b.ID)
      ∨ (colValOf col a ≠ colValOf col b
         ∧ colValLe dir (colValOf col a) (colValOf col b) = true) := by
  rw [movieLe]
  by_cases h : colValOf col a = colValOf col b
  · rw [if_pos (by simp [h])]
    simp [h]
  · rw [if_neg (by simp [h])]
    simp [h]

/-- Consecutive LIMIT/OFFSET windows of width p starting at multiples of p
concatenate back to the whole list once they cover its length. -/
theorem flatMap_range_window {α : Type} (p : Nat) :
    ∀ (k : Nat) (l : List α), l.length ≤ k * p →
      (List.range k).flatMap (fun i => (l.drop (i * p)).take p) = l := by
  intro k
  induction k with
  | zero =>
    intro l hl
    rw [Nat.zero_mul] at hl
    rw [List.eq_nil_of_length_eq_zero (Nat.le_zero.mp hl)]
    rfl
  | succ k ih =>
    intro l hl
    rw [List.range_succ_eq_map, List.flatMap_cons, Nat.zero_mul, List.drop_zero]
    have hpt : ∀ i : Nat,
        (l.drop (Nat.succ i * p)).take p = ((l.drop p).drop (i * p)).take p := by
      intro i
      have hidx : (Nat.succ i) * p = p + i * p := by
        rw [Nat.succ_mul]
        omega
      simp only [hidx, List.drop_drop]
    have hmapped : (List.map Nat.succ (List.range k)).flatMap (fun j => (l.drop (j * p)).take p)
        = (List.range k).flatMap (fun i => ((l.drop p).drop (i * p)).take p) := by
      induction (List.range k) with
      | nil => rfl
      | cons x xs ihm =>
        rw [List.map_cons, List.flatMap_cons, List.flatMap_cons, hpt x, ihm]
    rw [hmapped, ih (l.drop p) (by rw [List.length_drop, Nat.succ_mul] at *; omega),
      List.take_append_drop]

/-- A page index below the ceiling of N over p starts strictly inside the
N matching rows. -/
theorem lt_of_lt_ceilDivNat (N p i : Nat) (hp : 0 < p) (hi : i < (N + p - 1) / p) :
    i * p < N := by
  have hd := Nat.div_add_mod (N + p - 1) p
  have hm := Nat.mod_lt (N + p - 1) hp
  have h1 : (i + 1) * p ≤ ((N + p - 1) / p) * p := Nat.mul_le_mul_right p hi
  rw [Nat.mul_comm p ((N + p - 1) / p)] at hd
  rw [Nat.succ_mul] at h1
  generalize hip : i * p = ip at *
  generalize hqp : ((N + p - 1) / p) * p = qp at *
  omega

/-- The ceiling of N over p pages of size p cover all N rows. -/
theorem le_ceilDivNat_mul (N p : Nat) (hp : 0 < p) : N ≤ ((N + p - 1) / p) * p := by
  have hd := Nat.div_add_mod (N + p - 1) p
  have hm := Nat.mod_lt (N + p - 1) hp
  rw [Nat.mul_comm p ((N + p - 1) / p)] at hd
  generalize hqp : ((N + p - 1) / p) * p = qp at *
  omega

/-- Pointwise-equal functions give equal flatMaps. -/
theorem flatMap_congr_mem {α β : Type} (l : List α) (f g : α → List β)
    (h : ∀ a ∈ l, f a = g a) : l.flatMap f = l.flatMap g := by
  induction l with
  | nil => rfl
  | cons x xs ih =>
    rw [List.flatMap_cons, List.flatMap_cons, h x (by simp),
      ih (fun a ha => h a (by simp [ha]))]

/-- The rows of page i + 1 are the drop/take window of the sorted matching
rows given by offset() and limit(). -/
theorem pageRows_eq_drop_take (fullText : String → String → Bool) (db : Table)
    (title : String) (genres : List String) (p : Nat) (sort : String)
    (safelist : List String) (col : String) (i : Nat)
    (hcol : Filters.sortColumn (pageFilters p sort safelist 0) = some col) :
    pageRows fullText db title genres p sort safelist i =
      ((List.insertionSort
          (fun a b =>
            movieLe col (Filters.sortDirection (pageFilters p sort safelist 0)) a b = true)
          (db.filter (whereClause fullText title genres))).drop
            (Filters.offset (pageFilters p sort safelist i)).toNat).take
        (Filters.limit (pageFilters p sort safelist i)).toNat := by
  have hcoli : Filters.sortColumn (pageFilters p sort safelist i) = some col := hcol
  simp only [pageRows, MovieModel.GetAll, hcoli]
  rfl

/-- Inside the 64-bit-safe range, the window of page i + 1 starts at row
i * p and holds at most p rows. -/
theorem pageRows_eq_window (fullText : String → String → Bool) (db : Table)
    (title : String) (genres : List String) (p : Nat) (sort : String)
    (safelist : List String) (col : String) (i : Nat)
    (hcol : Filters.sortColumn (pageFilters p sort safelist 0) = some col)
    (hb : i * p < 2 ^ 63) :
    pageRows fullText db title genres p sort safelist i =
      ((List.insertionSort
          (fun a b =>
            movieLe col (Filters.sortDirection (pageFilters p sort safelist 0)) a b = true)
          (db.filter (whereClause fullText title genres))).drop (i * p)).take p := by
  have hoff : (Filters.offset (pageFilters p sort safelist i)).toNat = i * p := by
    have hval : Filters.offset (pageFilters p sort safelist i) = ((i * p : Nat) : Int) := by
      rw [Filters.offset]
      have harg : ((pageFilters p sort safelist i).Page - 1) * (pageFilters p sort safelist i).PageSize
          = ((i * p : Nat) : Int) := by
        rw [pageFilters]
        push_cast
        ring
      rw [harg, wrap64_eq_self]
      · have := Int.natCast_nonneg (i * p)
        omega
      · exact_mod_cast hb
    rw [hval, Int.toNat_natCast]
  have hlim : (Filters.limit (pageFilters p sort safelist i)).toNat = p := by
    rw [Filters.limit, pageFilters]
    exact Int.toNat_natCast p
  rw [pageRows_eq_drop_take fullText db title genres p sort safelist col i hcol, hoff, hlim]

/-- C6: over a fixed table, with a validated page size and resolvable sort
value, every page GetAll returns is the LIMIT/OFFSET window of the one list
of matching rows sorted by the interpolated column in the interpolated
direction; every returned page is ordered by that sort key with the
mandatory ascending id tie-break (so the order is deterministic also among
equal sort keys); and the pages 1 through the ceiling of the matching count
over the page size, concatenated, are a permutation of the matching rows —
every matching row appears exactly once across the sweep. -/
theorem getall_pagination_stable (fullText : String → String → Bool) (db : Table)
    (title : String) (genres : List String) (sort : String) (safelist : List String)
    (p : Nat) (col : String) (hp : 0 < p) (hdb : db.length ≤ 1000000000)
    (hcol : Filters.sortColumn (pageFilters p sort safelist 0) = some col) :
    (∀ i, i < ((db.filter (whereClause fullText title genres)).length + p - 1) / p →
      pageRows fullText db title genres p sort safelist i =
        ((List.insertionSort
            (fun a b =>
              movieLe col (Filters.sortDirection (pageFilters p sort safelist 0)) a b = true)
            (db.filter (whereClause fullText title genres))).drop (i * p)).take p)
    ∧ (∀ i, (pageRows fullText db title genres p sort safelist i).Pairwise
        (fun a b =>
          (colValOf col a = colValOf col b ∧ a.ID ≤ b.ID)
          ∨ (colValOf col a ≠ colValOf col b
             ∧ colValLe (Filters.sortDirection (pageFilters p sort safelist 0))
                 (colValOf col a) (colValOf col b) = true)))
    ∧ ((List.range
          (((db.filter (whereClause fullText title genres)).length + p - 1) / p)).flatMap
        (pageRows fullText db title genres p sort safelist)).Perm
        (db.filter (whereClause fullText title genres)) := by
  have hwin : ∀ i,
      i < ((db.filter (whereClause fullText title genres)).length + p - 1) / p →
      pageRows fullText db title genres p sort safelist i =
        ((List.insertionSort
            (fun a b =>
              movieLe col (Filters.sortDirection (pageFilters p sort safelist 0)) a b = true)
            (db.filter (whereClause fullText title genres))).drop (i * p)).take p := by
    intro i hi
    have hN := List.length_filter_le (whereClause fullText title genres) db
    have hip := lt_of_lt_ceilDivNat
      (db.filter (whereClause fullText title genres)).length p i hp hi
    exact pageRows_eq_window fullText db title genres p sort safelist col i hcol (by omega)
  have hsortedPW : (List.insertionSort
      (fun a b =>
        movieLe col (Filters.sortDirection (pageFilters p sort safelist 0)) a b = true)
      (db.filter (whereClause fullText title genres))).Pairwise
      (fun a b =>
        movieLe col (Filters.sortDirection (pageFilters p sort safelist 0)) a b = true) := by
    letI : IsTotal Movie (fun a b =>
        movieLe col (Filters.sortDirection (pageFilters p sort safelist 0)) a b = true) :=
      ⟨fun a b => by
        have h := movieLe_total col (Filters.sortDirection (pageFilters p sort safelist 0)) a b
        rcases Bool.or_eq_true _ _ ▸ h with h1 | h1
        · exact Or.inl h1
        · exact Or.inr h1⟩
    letI : IsTrans Movie (fun a b =>
        movieLe col (Filters.sortDirection (pageFilters p sort safelist 0)) a b = true) :=
      ⟨fun a b c hab hbc =>
        movieLe_trans col (Filters.sortDirection (pageFilters p sort safelist 0)) a b c hab hbc⟩
    exact List.sorted_insertionSort _ _
  refine ⟨hwin, ?_, ?_⟩
  · intro i
    rw [pageRows_eq_drop_take fullText db title genres p sort safelist col i hcol]
    exact (hsortedPW.sublist
        ((List.take_sublist _ _).trans (List.drop_sublist _ _))).imp
      (fun hab =>
        (movieLe_iff col (Filters.sortDirection (pageFilters p sort safelist 0)) _ _).mp hab)
  · have hlen : (List.insertionSort
        (fun a b =>
          movieLe col (Filters.sortDirection (pageFilters p sort safelist 0)) a b = true)
        (db.filter (whereClause fullText title genres))).length ≤
        (((db.filter (whereClause fullText title genres)).length + p - 1) / p) * p := by
      rw [(List.perm_insertionSort _ _).length_eq]
      exact le_ceilDivNat_mul (db.filter (whereClause fullText title genres)).length p hp
    have hflat := flatMap_range_window p
      (((db.filter (whereClause fullText title genres)).length + p - 1) / p)
      (List.insertionSort
        (fun a b =>
          movieLe col (Filters.sortDirection (pageFilters p sort safelist 0)) a b = true)
        (db.filter (whereClause fullText title genres))) hlen
    have hcongr := flatMap_congr_mem
      (List.range (((db.filter (whereClause fullText title genres)).length + p - 1) / p))
      (pageRows fullText db title genres p sort safelist)
      (fun i => ((List.insertionSort
          (fun a b =>
            movieLe col (Filters.sortDirection (pageFilters p sort safelist 0)) a b = true)
          (db.filter (whereClause fullText title genres))).drop (i * p)).take p)
      (fun i hi => hwin i (List.mem_range.mp hi))
    rw [hcongr, hflat]
    exact List.perm_insertionSort _ _

/-- Witness for C6: three rows, two of which tie on the sort key year, swept
in two pages of size two — the concatenated sweep is a permutation of the
matching rows. -/
theorem getall_pagination_stable_witness :
    ((List.range 2).flatMap
        (pageRows (fun _ _ => false)
          [⟨1, 0, "a", 2000, 100, ["d"], 1⟩, ⟨2, 0, "b", 2000, 90, ["d"], 1⟩,
           ⟨3, 0, "c", 1999, 80, ["d"], 1⟩] "" [] 2 "year" ["year"])).Perm
      (([⟨1, 0, "a", 2000, 100, ["d"], 1⟩, ⟨2, 0, "b", 2000, 90, ["d"], 1⟩,
         ⟨3, 0, "c", 1999, 80, ["d"], 1⟩] : Table).filter
        (whereClause (fun _ _ => false) "" [])) :=
  (getall_pagination_stable (fun _ _ => false)
    [⟨1, 0, "a", 2000, 100, ["d"], 1⟩, ⟨2, 0, "b", 2000, 90, ["d"], 1⟩,
     ⟨3, 0, "c", 1999, 80, ["d"], 1⟩] "" [] "year" ["year"] 2 "year"
    (by decide) (by decide) (by decide)).2.2

end OMDB
